import Mathlib

/-!
Verification of the AnyVid downloader backend (FastAPI + yt-dlp wrapper).

The development embeds, in executable Lean definitions, the format-catalog
pipeline of backend/services/downloader.py, the filename sanitizer, the
download-proxy control flow, the error classifier of backend/main.py, the
merge-reference string convention, and the mux-pipeline teardown logic,
and proves or refutes the specified properties about them.

Modelling conventions:
  - Python str is modelled as Lean String (or List Char for character-level
    functions); upper and lower casing is modelled on ASCII letters.
  - Python float fields (tbr, abr, fps) are modelled as rationals: the code
    only compares, truncates and prints them, and no NaN reaches the model.
  - Missing dict keys are Option.none; Python truthiness of strings is
    "non-empty", of numbers "non-zero".
-/

namespace AnyVid

/-! ### Python-style helpers -/

/-- Python string truthiness fallback: the value of the expression
pattern match on an optional string followed by an or-default, as in
the frequent idiom of the source. A missing or empty string falls back. -/
def pyO (a : Option String) (d : String) : String :=
  match a with
  | none => d
  | some s => if s = "" then d else s

/-- Python or-chain on two plain strings: the left one unless empty. -/
def pyOrS (a b : String) : String := if a = "" then b else a

/-- Python numeric or-chain on one optional rational: a missing or zero
value falls back to the default. -/
def pyQ (a : Option ℚ) (d : ℚ) : ℚ :=
  match a with
  | none => d
  | some q => if q = 0 then d else q

/-- Python numeric truthiness of an optional rational. -/
def truthyQ : Option ℚ → Bool
  | none => false
  | some q => q != 0

/-- Python int() truncation toward zero on a rational. -/
def pyInt (q : ℚ) : Int := q.num.tdiv q.den

/-- ASCII str.upper(). -/
def upperStr (s : String) : String := ⟨s.data.map Char.toUpper⟩

/-- ASCII str.lower(). -/
def lowerStr (s : String) : String := ⟨s.data.map Char.toLower⟩

/-- Substring test on character lists: Python `needle in hay`. -/
def containsSubL (hay needle : List Char) : Bool :=
  match hay with
  | [] => needle.isEmpty
  | _ :: t => needle.isPrefixOf hay || containsSubL t needle

/-- Substring test on strings. -/
def containsSub (hay needle : String) : Bool := containsSubL hay.data needle.data

/-! ### Data model

RawFormat mirrors the fields of one yt-dlp raw format dict that
downloader.py reads; a `none` field is a missing key. -/

structure RawFormat where
  format_id : Option String := none
  url : Option String := none
  manifest_url : Option String := none
  protocol : Option String := none
  vcodec : Option String := none
  acodec : Option String := none
  height : Option Int := none
  width : Option Int := none
  fps : Option ℚ := none
  ext : Option String := none
  filesize : Option Int := none
  filesize_approx : Option Int := none
  tbr : Option ℚ := none
  abr : Option ℚ := none
  deriving DecidableEq

/-- The fields of the top-level yt-dlp info dict that the catalog
pipeline of `_sync_extract_info` / `_add_best_merged_format` reads. -/
structure RawInfo where
  formats : List RawFormat := []
  webpage_url : Option String := none
  url : Option String := none
  ext : Option String := none
  deriving DecidableEq

/-- models.FormatInfo with the pydantic field defaults. -/
structure FormatInfo where
  format_id : String
  label : String
  quality : String := ""
  extension : String := "mp4"
  filesize : Option Int := none
  filesize_approx : Option Int := none
  is_audio : Bool := false
  is_video_only : Bool := false
  has_video : Bool := true
  has_audio : Bool := true
  height : Option Int := none
  width : Option Int := none
  fps : Option ℚ := none
  vcodec : Option String := none
  acodec : Option String := none
  tbr : Option ℚ := none
  abr : Option ℚ := none
  url : String := ""
  deriving DecidableEq

/-! ### Format Normalizer: `_get_quality_label`, `_build_format_label` -/

/-- downloader._get_quality_label. -/
def getQualityLabel (f : RawFormat) : String :=
  let vcodec := pyO f.vcodec "none"
  let acodec := pyO f.acodec "none"
  let hasVideo := vcodec != "none" && f.height.isSome
  let hasAudio := acodec != "none"
  if hasVideo then
    let base :=
      match f.height with
      | some h =>
          if h ≥ 2160 then "4K"
          else if h ≥ 1440 then "1440p"
          else if h ≥ 1080 then "1080p"
          else if h ≥ 720 then "720p"
          else if h ≥ 480 then "480p"
          else if h ≥ 360 then "360p"
          else if h ≥ 240 then "240p"
          else if h ≥ 144 then "144p"
          else toString h ++ "p"
      | none => "Video"
    match f.fps with
    | some v => if v > 30 then base ++ " " ++ toString (pyInt v) ++ "fps" else base
    | none => base
  else if hasAudio then
    if truthyQ f.abr then toString (pyInt (f.abr.getD 0)) ++ "kbps"
    else if truthyQ f.tbr then toString (pyInt (f.tbr.getD 0)) ++ "kbps"
    else "Audio"
  else "Unknown"

/-- downloader._build_format_label. -/
def buildFormatLabel (f : RawFormat) : String :=
  let vcodec := pyO f.vcodec "none"
  let acodec := pyO f.acodec "none"
  let ext := f.ext.getD "mp4"
  let hasVideo := vcodec != "none"
  let hasAudio := acodec != "none"
  let quality := getQualityLabel f
  if hasVideo && hasAudio then quality ++ " " ++ upperStr ext ++ " (Video + Audio)"
  else if hasVideo then quality ++ " " ++ upperStr ext ++ " (Video Only)"
  else if hasAudio then "Audio " ++ upperStr ext ++ " (" ++ quality ++ ")"
  else quality ++ " " ++ upperStr ext

/-- One iteration of the `_extract_formats` loop before deduplication:
the skip checks in source order, then the FormatInfo construction. -/
def normalizeOne (f : RawFormat) : Option FormatInfo :=
  let url := pyO f.url (pyO f.manifest_url "")
  if url = "" then none
  else
    let protocol := f.protocol.getD ""
    if protocol = "m3u8" || protocol = "f4m" || protocol = "f4f" || protocol = "ism" then none
    else
      let vcodec := pyO f.vcodec "none"
      let acodec := pyO f.acodec "none"
      let ext := f.ext.getD "mp4"
      let hasVideo := vcodec != "none"
      let hasAudio := acodec != "none"
      if ext = "mhtml" || ext = "json" then none
      else if vcodec != "" && containsSub (lowerStr vcodec) "storyboard" then none
      else
        some
          { format_id := f.format_id.getD ""
            label := buildFormatLabel f
            quality := getQualityLabel f
            extension := ext
            filesize := f.filesize
            filesize_approx := f.filesize_approx
            is_audio := hasAudio && !hasVideo
            is_video_only := hasVideo && !hasAudio
            has_video := hasVideo
            has_audio := hasAudio
            height := f.height
            width := f.width
            fps := f.fps
            vcodec := if vcodec != "none" then some vcodec else none
            acodec := if acodec != "none" then some acodec else none
            tbr := f.tbr
            abr := f.abr
            url := url }

/-! ### Stable sort

Python list.sort is a stable ascending sort by key.  A stable sort with a
total preorder is unique as a function of the input, so the structural
insertion sort below computes exactly what list.sort computes. -/

/-- Strict part of a Bool comparison. -/
def ltB (le : α → α → Bool) (a b : α) : Bool := le a b && !(le b a)

/-- Stable insert: x goes before the first element not strictly below it. -/
def insertS (le : α → α → Bool) (x : α) : List α → List α
  | [] => [x]
  | y :: t => if ltB le y x then y :: insertS le x t else x :: y :: t

/-- Stable insertion sort. -/
def isort (le : α → α → Bool) : List α → List α
  | [] => []
  | x :: t => insertS le x (isort le t)

/-! ### Catalog Builder: `_sort_key`, `_extract_formats` -/

/-- The category component of downloader._sort_key. -/
def categoryOf (f : FormatInfo) : Int :=
  if f.has_video && f.has_audio then 0
  else if f.has_video && !f.has_audio then 1
  else 2

/-- downloader._sort_key: `(category, -height, -tbr, -abr)` with missing
numeric fields as 0. -/
def sortKey (f : FormatInfo) : Int × Int × ℚ × ℚ :=
  (categoryOf f, -(f.height.getD 0), -(f.tbr.getD 0), -(f.abr.getD 0))

/-- Lexicographic order on the sort key, as Python compares tuples. -/
def keyLex (a b : Int × Int × ℚ × ℚ) : Prop :=
  a.1 < b.1 ∨ (a.1 = b.1 ∧ (a.2.1 < b.2.1 ∨ (a.2.1 = b.2.1 ∧
    (a.2.2.1 < b.2.2.1 ∨ (a.2.2.1 = b.2.2.1 ∧ a.2.2.2 ≤ b.2.2.2)))))

instance (a b : Int × Int × ℚ × ℚ) : Decidable (keyLex a b) := by
  unfold keyLex; infer_instance

/-- The comparison `formats.sort(key=_sort_key)` sorts by. -/
def fmtLe (f g : FormatInfo) : Bool := decide (keyLex (sortKey f) (sortKey g))

/-- Deduplication key of `_extract_formats`: the string `label_ext`. -/
def dKey (f : FormatInfo) : String := f.label ++ "_" ++ f.extension

/-- The `seen_labels` deduplication of the `_extract_formats` loop:
keep the first occurrence of each key. -/
def dedupByKey : List FormatInfo → List String → List FormatInfo
  | [], _ => []
  | f :: t, seen =>
      if dKey f ∈ seen then dedupByKey t seen
      else f :: dedupByKey t (dKey f :: seen)

/-- downloader._extract_formats: normalize with skip rules, deduplicate
on `label_ext` keeping first occurrences, then stable-sort by `_sort_key`. -/
def extractFormats (raws : List RawFormat) : List FormatInfo :=
  isort fmtLe (dedupByKey (raws.filterMap normalizeOne) [])

/-! ### `_add_best_merged_format` -/

/-- Descending key for the video-only candidates: `(height or 0, tbr or 0)`
with reverse=True, i.e. stable sort with larger keys first. -/
def vDescLe (a b : FormatInfo) : Bool :=
  decide ((b.height.getD 0 : Int) < a.height.getD 0 ∨
    ((b.height.getD 0 : Int) = a.height.getD 0 ∧ (b.tbr.getD 0 : ℚ) ≤ a.tbr.getD 0))

/-- Descending key for the audio-only candidates: `abr or 0`, reverse=True. -/
def aDescLe (a b : FormatInfo) : Bool := decide ((b.abr.getD 0 : ℚ) ≤ a.abr.getD 0)

/-- The quality tier of the synthesized merged-best entry: the ladder in
`_add_best_merged_format`, which leaves "Best" for a falsy height or a
height below 720. -/
def bestQualityOf : Option Int → String
  | none => "Best"
  | some h =>
      if h = 0 then "Best"
      else if h ≥ 2160 then "4K"
      else if h ≥ 1440 then "1440p"
      else if h ≥ 1080 then "1080p"
      else if h ≥ 720 then "720p"
      else "Best"

/-- The merge reference built at downloader.py line 256. -/
def buildMergeUrl (vidId audId webpage : String) : String :=
  "merge:" ++ vidId ++ "+" ++ audId ++ ":" ++ webpage

/-- The virtual "best" FormatInfo of `_add_best_merged_format`
(the container is forced to mp4 there). -/
def mkBestFormat (bestHeight : Option Int) (mergeUrl : String) : FormatInfo :=
  { format_id := "best"
    label := "Best Quality (Merged) " ++ upperStr "mp4"
    quality := bestQualityOf bestHeight
    extension := "mp4"
    is_audio := false
    is_video_only := false
    has_video := true
    has_audio := true
    height := bestHeight
    url := mergeUrl }

/-- downloader._add_best_merged_format: prepend the virtual "best" entry
when a video-only and an audio-only candidate with non-empty format_id
exist and a webpage (or top-level) URL is available; otherwise return the
catalog unchanged. -/
def addBestMergedFormat (info : RawInfo) (formats : List FormatInfo) : List FormatInfo :=
  let bestUrl := pyOrS (info.webpage_url.getD "") (info.url.getD "")
  let videoOnly := formats.filter (fun f => f.is_video_only && f.format_id != "")
  let audioOnly := formats.filter (fun f => f.is_audio && f.format_id != "")
  match isort vDescLe videoOnly, isort aDescLe audioOnly with
  | bestVideo :: _, bestAudio :: _ =>
      if bestUrl = "" then formats
      else
        mkBestFormat bestVideo.height
          (buildMergeUrl bestVideo.format_id bestAudio.format_id bestUrl) :: formats
  | _, _ => formats

/-- The condition under which `_add_best_merged_format` synthesizes the
entry: both candidate lists non-empty and a usable webpage reference. -/
def bestCond (info : RawInfo) (formats : List FormatInfo) : Prop :=
  formats.filter (fun f => f.is_video_only && f.format_id != "") ≠ [] ∧
  formats.filter (fun f => f.is_audio && f.format_id != "") ≠ [] ∧
  pyOrS (info.webpage_url.getD "") (info.url.getD "") ≠ ""

instance (info : RawInfo) (formats : List FormatInfo) :
    Decidable (bestCond info formats) := by
  unfold bestCond; infer_instance

/-! ### The catalog part of `_sync_extract_info` (lines 314-352) -/

/-- The synthesized "bestaudio_mp3" entry. -/
def mp3Format (bestAbr : ℚ) (bestAudioUrl : String) : FormatInfo :=
  { format_id := "bestaudio_mp3"
    label := if bestAbr != 0 then "Audio MP3 (" ++ toString (pyInt bestAbr) ++ "kbps)"
             else "Audio MP3"
    quality := if bestAbr != 0 then toString (pyInt bestAbr) ++ "kbps" else "Audio"
    extension := "mp3"
    is_audio := true
    is_video_only := false
    has_video := false
    has_audio := true
    abr := if bestAbr != 0 then some bestAbr else none
    url := bestAudioUrl }

/-- The loop picking the best audio bitrate and URL (lines 327-333). -/
def bestAudioScan (audioFormats : List FormatInfo) : ℚ × String :=
  audioFormats.foldl
    (fun acc af =>
      let afbr := pyQ af.abr (pyQ af.tbr 0)
      if acc.1 < afbr then (afbr, af.url) else acc)
    ((0 : ℚ), "")

/-- The catalog after the conditional merged-best step (lines 321-323):
`_add_best_merged_format` runs only when some format has video. -/
def catalogBase (info : RawInfo) : List FormatInfo :=
  let formats0 := extractFormats info.formats
  if (formats0.filter (fun f => f.has_video)).isEmpty then formats0
  else addBestMergedFormat info formats0

/-- The format-catalog portion of downloader._sync_extract_info: extract,
conditionally add the merged-best entry, conditionally append the MP3 entry. -/
def buildCatalog (info : RawInfo) : List FormatInfo :=
  let formats0 := extractFormats info.formats
  let audioFormats := formats0.filter (fun f => f.is_audio)
  let videoFormats := formats0.filter (fun f => f.has_video)
  let formats1 := catalogBase info
  if audioFormats.isEmpty && videoFormats.isEmpty then formats1
  else
    let scan := bestAudioScan audioFormats
    let bestAudioUrl :=
      if scan.2 = "" then
        match formats1 with
        | [] => scan.2
        | h :: _ => h.url
      else scan.2
    if bestAudioUrl = "" then formats1
    else formats1 ++ [mp3Format scan.1 bestAudioUrl]

/-! ### main._sanitize_filename -/

/-- The character class of the substitution regex in `_sanitize_filename`:
the nine reserved characters and the control bytes 0x00-0x1F. -/
def badChar (c : Char) : Bool :=
  c = '<' || c = '>' || c = ':' || c = '"' || c = '/' || c = '\\' ||
  c = '|' || c = '?' || c = '*' || decide (c.toNat ≤ 0x1f)

/-- Characters removed by `.strip(". ")`. -/
def dotSpace (c : Char) : Bool := c = '.' || c = ' '

/-- Python str.strip(". "): drop the characters from both ends. -/
def stripDotSpace (l : List Char) : List Char :=
  ((l.dropWhile dotSpace).reverse.dropWhile dotSpace).reverse

/-- main._sanitize_filename on the character list of the name. -/
def sanitizeFilename (l : List Char) : List Char :=
  let replaced := l.map (fun c => if badChar c then '_' else c)
  let stripped := stripDotSpace replaced
  let nonEmpty := if stripped.isEmpty then "download".data else stripped
  if 200 < nonEmpty.length then nonEmpty.take 200 else nonEmpty

/-! ### The merge-reference parser (main.download_proxy lines 190-196 and
main.stream_ffmpeg_merge lines 358-361) -/

/-- Split at the first occurrence of a separator: Python split(sep, 1)
restricted to the case where the separator occurs (otherwise the source
code path raises IndexError reading parts[1]). -/
def splitFirst (sep : Char) : List Char → Option (List Char × List Char)
  | [] => none
  | c :: t =>
      if c = sep then some ([], t)
      else
        match splitFirst sep t with
        | none => none
        | some (a, b) => some (c :: a, b)

/-- Python split(sep) with no limit. -/
def splitAll (sep : Char) : List Char → List (List Char)
  | [] => [[]]
  | c :: t =>
      let r := splitAll sep t
      if c = sep then [] :: r
      else
        match r with
        | [] => [[c]]
        | h :: t2 => (c :: h) :: t2

/-- Parsing of a merge reference by the download endpoint: strip the
6-character "merge:" scheme, split once at the first colon into the id
pair and the webpage URL, then split the id pair at "+" which must give
exactly a video id and an audio id; any failure is the 400 error path. -/
def parseMergeUrl (s : String) : Option (String × String × String) :=
  if s.data.take 6 = "merge:".data then
    match splitFirst ':' (s.data.drop 6) with
    | none => none
    | some (ids, webpage) =>
        match splitAll '+' ids with
        | [v, a] => some (⟨v⟩, ⟨a⟩, ⟨webpage⟩)
        | _ => none
  else none

/-! ### main.download_proxy control flow -/

/-- Behaviour of the upstream server / HTTP client for one request. -/
inductive Upstream where
  | ok (status : Nat) (contentRange : Option String)
      (contentLength : Option String) (contentType : Option String)
  | timedOutExc
  | httpErrorExc
  deriving DecidableEq

/-- The response the handler returns: either the JSON error envelope or a
streaming response with the forwarded headers. -/
inductive ProxyResp where
  | envelope (status : Nat) (errType : String)
  | streamed (status : Nat) (contentRange : Option String)
      (contentLength : Option String) (contentType : String)
  | mergeRouted (ids webpage : String)
  deriving DecidableEq

/-- The scheme gate at main.py line 165: the anchored case-insensitive
regex for http://, https:// or merge:. -/
def schemeOk (u : String) : Bool :=
  let l := (lowerStr u).data
  "http://".data.isPrefixOf l || "https://".data.isPrefixOf l ||
    "merge:".data.isPrefixOf l

/-- main.download_proxy for a non-merge URL, as the code stands: the
scheme check, then line 209 reads the variable `client`, which is a
function local (it is assigned at lines 210 and 216) with no prior
assignment and no module-level binding, so the read raises
UnboundLocalError before any upstream request; the bare
`except Exception` at line 289 turns it into the 500 server_error
envelope.  The upstream behaviour argument is never consulted. -/
def downloadProxyDirect (decodedUrl : String) (_upstream : Upstream) : ProxyResp :=
  if !schemeOk decodedUrl then .envelope 400 "invalid_url"
  else if "merge:".data.isPrefixOf decodedUrl.data then
    match splitFirst ':' (decodedUrl.data.drop 6) with
    | some (ids, webpage) => .mergeRouted ⟨ids⟩ ⟨webpage⟩
    | none => .envelope 400 "invalid_url"
  else .envelope 500 "server_error"

/-- The direct-relay body of main.download_proxy, lines 216-279, read as
written (i.e. with a bound HTTP client): status ≥ 400 becomes the 502
envelope, otherwise the upstream status is forwarded together with
Content-Range and Content-Length when present and a Content-Type
defaulting to application/octet-stream; a timeout exception becomes the
504 timeout envelope and any other HTTP error the 502 envelope. -/
def directProxyRelay (upstream : Upstream) : ProxyResp :=
  match upstream with
  | .ok status contentRange contentLength contentType =>
      if 400 ≤ status then .envelope 502 "upstream_error"
      else .streamed status contentRange contentLength
        (contentType.getD "application/octet-stream")
  | .timedOutExc => .envelope 504 "timeout"
  | .httpErrorExc => .envelope 502 "upstream_error"

/-! ### main.get_video_info error classification -/

/-- The substring classifier of /api/info error messages, in source order. -/
def classifyError (msg : String) : String :=
  let m := lowerStr msg
  if containsSub m "private" then "private_video"
  else if containsSub m "age" || containsSub m "sign in" || containsSub m "login" then
    "age_restricted"
  else if containsSub m "not supported" || containsSub m "unsupported" then
    "unsupported_site"
  else if containsSub m "unavailable" || containsSub m "removed" then "unavailable"
  else if containsSub m "copyright" then "copyright"
  else if containsSub m "timed out" || containsSub m "timeout" then "timeout"
  else if containsSub m "geo" || containsSub m "country" then "geo_restricted"
  else "extraction_error"

/-- main.get_video_info on a ValueError from the extraction gateway:
always HTTP status 400, with the classified error_type. -/
def infoErrorResponse (msg : String) : Nat × String := (400, classifyError msg)

/-- The message extract_video_info raises when asyncio.wait_for hits the
configured INFO_TIMEOUT (downloader.py lines 398-401). -/
def timeoutMessage : String :=
  "Request timed out. The video might be too large or the site is slow."

/-! ### main.stream_ffmpeg_merge teardown (lines 427-462) -/

/-- The observable state of one child process. -/
inductive ProcStatus where
  | running
  | exited (code : Int)
  | signaled
  deriving DecidableEq

/-- A process state is terminal when the process no longer runs. -/
def terminalProc : ProcStatus → Bool
  | .running => false
  | _ => true

/-- Popen.kill: a still-running process is killed; an already finished
one keeps its status. -/
def killProc : ProcStatus → ProcStatus
  | .running => .signaled
  | s => s

/-- The `if p.poll() is None: p.terminate()` steps of the finally block. -/
def termIfRunning : ProcStatus → ProcStatus
  | .running => .signaled
  | s => s

/-- The resources owned by one mux session: the three child processes and
the two named pipe files. -/
structure MuxState where
  ffmpegProc : ProcStatus
  audProc : ProcStatus
  vidProc : ProcStatus
  vidPipe : Bool
  audPipe : Bool
  deriving DecidableEq

/-- The finally block of stream_cleanup_gen: terminate whichever of the
three processes still runs, then unlink both pipe files. -/
def finallyCleanup (s : MuxState) : MuxState :=
  { ffmpegProc := termIfRunning s.ffmpegProc
    audProc := termIfRunning s.audProc
    vidProc := termIfRunning s.vidProc
    vidPipe := false
    audPipe := false }

/-- Normal completion: the relay loop drains ffmpeg stdout, the three
wait() calls reap the children with their exit codes, then the finally
block runs. -/
def runNormalPath (s : MuxState) (fc ac vc : Int) : MuxState :=
  finallyCleanup { s with ffmpegProc := .exited fc, audProc := .exited ac,
                          vidProc := .exited vc }

/-- Relay error: `except Exception` kills all three processes, then the
finally block runs. -/
def runErrorPath (s : MuxState) : MuxState :=
  finallyCleanup { s with ffmpegProc := killProc s.ffmpegProc,
                          audProc := killProc s.audProc,
                          vidProc := killProc s.vidProc }

/-- Client disconnect: GeneratorExit propagates from the yield; it is not
an Exception, so only the finally block runs. -/
def runDisconnectPath (s : MuxState) : MuxState := finallyCleanup s

/-- The teardown guarantee for one final state: no process still runs and
neither pipe file remains. -/
def cleanedUp (s : MuxState) : Prop :=
  terminalProc s.ffmpegProc = true ∧ terminalProc s.audProc = true ∧
  terminalProc s.vidProc = true ∧ s.vidPipe = false ∧ s.audPipe = false

instance (s : MuxState) : Decidable (cleanedUp s) := by
  unfold cleanedUp; infer_instance

/-! ### Concrete inputs used by the closed theorems -/

/-- A placeholder FormatInfo used only as the default of headD. -/
def fmtDefault : FormatInfo := { format_id := "", label := "" }

/-- A 1080p video-only raw stream, as in the end-to-end scenario. -/
def c1Video : RawFormat :=
  { format_id := some "137", url := some "https://cdn.example.com/video.mp4",
    vcodec := some "avc1.640028", acodec := some "none", height := some 1080,
    ext := some "mp4", tbr := some 4000 }

/-- A 128 kbps audio-only raw stream, as in the end-to-end scenario. -/
def c1Audio : RawFormat :=
  { format_id := some "140", url := some "https://cdn.example.com/audio.m4a",
    vcodec := some "none", acodec := some "mp4a.40.2", abr := some 128,
    ext := some "m4a" }

/-- The extraction result of the end-to-end scenario: the two raw streams
and a webpage reference. -/
def c1Info : RawInfo :=
  { formats := [c1Video, c1Audio], webpage_url := some "https://example.com/v" }

/-- A video-only raw stream whose dict carries no format_id key, so the
normalizer records the empty string. -/
def c4VideoNoId : RawFormat :=
  { url := some "https://cdn.example.com/nv.mp4", vcodec := some "vp9",
    acodec := some "none", height := some 720, ext := some "mp4" }

/-- An audio-only raw stream with a format_id. -/
def c4Audio : RawFormat :=
  { format_id := some "251", url := some "https://cdn.example.com/na.webm",
    vcodec := some "none", acodec := some "opus", abr := some 96,
    ext := some "webm" }

/-- An info document with a webpage reference whose catalog has one
video-only entry (empty format_id) and one audio-only entry. -/
def c4Info : RawInfo :=
  { formats := [c4VideoNoId, c4Audio], webpage_url := some "https://example.com/n" }

/-- The full data-model invariant of the spec: the flags agree with codec
presence and with each other. -/
def fullInvariant (f : FormatInfo) : Prop :=
  f.has_video = f.vcodec.isSome ∧ f.has_audio = f.acodec.isSome ∧
  f.is_audio = (f.has_audio && !f.has_video) ∧
  f.is_video_only = (f.has_video && !f.has_audio)

/-- The flag-consistency part of the invariant, without the codec clauses. -/
def flagInvariant (f : FormatInfo) : Prop :=
  f.is_audio = (f.has_audio && !f.has_video) ∧
  f.is_video_only = (f.has_video && !f.has_audio)

instance (f : FormatInfo) : Decidable (fullInvariant f) := by
  unfold fullInvariant; infer_instance

instance (f : FormatInfo) : Decidable (flagInvariant f) := by
  unfold flagInvariant; infer_instance

/-- The lexicographic package of a sort key, for order reasoning. -/
def keyEmbed (a : Int × Int × ℚ × ℚ) : Int ×ₗ (Int ×ₗ (ℚ ×ₗ ℚ)) :=
  toLex (a.1, toLex (a.2.1, toLex (a.2.2.1, a.2.2.2)))

/-! ## Helper lemmas -/

theorem keyLex_iff_embed (a b : Int × Int × ℚ × ℚ) :
    keyLex a b ↔ keyEmbed a ≤ keyEmbed b := by
  simp [keyLex, keyEmbed, Prod.Lex.le_iff]

theorem keyLex_trans {a b c : Int × Int × ℚ × ℚ}
    (h1 : keyLex a b) (h2 : keyLex b c) : keyLex a c := by
  rw [keyLex_iff_embed] at *
  exact le_trans h1 h2

theorem keyLex_total (a b : Int × Int × ℚ × ℚ) : keyLex a b ∨ keyLex b a := by
  rw [keyLex_iff_embed, keyLex_iff_embed]
  exact le_total _ _

theorem fmtLe_trans (a b c : FormatInfo)
    (h1 : fmtLe a b = true) (h2 : fmtLe b c = true) : fmtLe a c = true := by
  simp only [fmtLe, decide_eq_true_eq] at *
  exact keyLex_trans h1 h2

theorem fmtLe_total (a b : FormatInfo) : fmtLe a b = true ∨ fmtLe b a = true := by
  simp only [fmtLe, decide_eq_true_eq]
  exact keyLex_total _ _

theorem insertS_perm (le : α → α → Bool) (x : α) (l : List α) :
    List.Perm (insertS le x l) (x :: l) := by
  induction l with
  | nil => simp [insertS]
  | cons y t ih =>
      unfold insertS
      split
      · exact (ih.cons y).trans (List.Perm.swap x y t)
      · exact List.Perm.refl _

theorem isort_perm (le : α → α → Bool) (l : List α) : List.Perm (isort le l) l := by
  induction l with
  | nil => simp [isort]
  | cons x t ih => exact (insertS_perm le x (isort le t)).trans (ih.cons x)

theorem mem_isort {le : α → α → Bool} {x : α} {l : List α} :
    x ∈ isort le l ↔ x ∈ l := (isort_perm le l).mem_iff

theorem isort_eq_nil_iff {le : α → α → Bool} {l : List α} :
    isort le l = [] ↔ l = [] := by
  constructor
  · intro h
    have := (isort_perm le l).length_eq
    rw [h] at this
    exact List.eq_nil_of_length_eq_zero this.symm
  · intro h; subst h; simp [isort]

theorem pairwise_insertS (le : α → α → Bool)
    (htrans : ∀ a b c, le a b = true → le b c = true → le a c = true)
    (htotal : ∀ a b, le a b = true ∨ le b a = true)
    (x : α) : ∀ {l : List α}, l.Pairwise (fun a b => le a b = true) →
    (insertS le x l).Pairwise (fun a b => le a b = true) := by
  intro l
  induction l with
  | nil => intro h; simp [insertS]
  | cons y t ih =>
      intro h
      rcases List.pairwise_cons.mp h with ⟨hy, ht⟩
      unfold insertS
      split
      · rename_i hlt
        have hyx : le y x = true := by
          simp only [ltB, Bool.and_eq_true] at hlt
          exact hlt.1
        refine List.pairwise_cons.mpr ⟨?_, ih ht⟩
        intro z hz
        rcases List.mem_cons.mp ((insertS_perm le x t).mem_iff.mp hz) with hz1 | hz2
        · exact hz1 ▸ hyx
        · exact hy z hz2
      · rename_i hlt
        have hxy : le x y = true := by
          simp only [ltB, Bool.and_eq_true, not_and, Bool.not_eq_true',
            Bool.not_eq_true] at hlt
          rcases htotal x y with h1 | h1
          · exact h1
          · simpa using hlt h1
        refine List.pairwise_cons.mpr ⟨?_, List.pairwise_cons.mpr ⟨hy, ht⟩⟩
        intro z hz
        rcases List.mem_cons.mp hz with hz1 | hz2
        · exact hz1 ▸ hxy
        · exact htrans x y z hxy (hy z hz2)

theorem pairwise_isort (le : α → α → Bool)
    (htrans : ∀ a b c, le a b = true → le b c = true → le a c = true)
    (htotal : ∀ a b, le a b = true ∨ le b a = true)
    (l : List α) : (isort le l).Pairwise (fun a b => le a b = true) := by
  induction l with
  | nil => simp [isort]
  | cons x t ih => exact pairwise_insertS le htrans htotal x ih

theorem mem_dedup_key_notin :
    ∀ {l : List FormatInfo} {seen : List String} {x : FormatInfo},
    x ∈ dedupByKey l seen → dKey x ∉ seen := by
  intro l
  induction l with
  | nil => intro seen x hx; simp [dedupByKey] at hx
  | cons f t ih =>
      intro seen x hx
      unfold dedupByKey at hx
      split at hx
      · exact ih hx
      · rename_i hnot
        rcases List.mem_cons.mp hx with h1 | h2
        · exact h1 ▸ hnot
        · have := ih h2
          intro hc
          exact this (List.mem_cons_of_mem _ hc)

theorem dedup_pairwise_key :
    ∀ (l : List FormatInfo) (seen : List String),
    (dedupByKey l seen).Pairwise (fun a b => dKey a ≠ dKey b) := by
  intro l
  induction l with
  | nil => intro seen; simp [dedupByKey]
  | cons f t ih =>
      intro seen
      unfold dedupByKey
      split
      · exact ih seen
      · refine List.pairwise_cons.mpr ⟨?_, ih _⟩
        intro y hy
        have := mem_dedup_key_notin hy
        intro hc
        exact this (hc ▸ List.mem_cons_self _ _)

theorem mem_dedup_first :
    ∀ {l : List FormatInfo} {seen : List String} {x : FormatInfo},
    x ∈ dedupByKey l seen →
    ∃ l₁ l₂, l = l₁ ++ x :: l₂ ∧ ∀ y ∈ l₁, dKey y ≠ dKey x := by
  intro l
  induction l with
  | nil => intro seen x hx; simp [dedupByKey] at hx
  | cons f t ih =>
      intro seen x hx
      unfold dedupByKey at hx
      split at hx
      · rename_i hin
        rcases ih hx with ⟨l₁, l₂, heq, hkeys⟩
        refine ⟨f :: l₁, l₂, by simp [heq], ?_⟩
        intro y hy
        rcases List.mem_cons.mp hy with h1 | h2
        · subst h1
          intro hc
          exact mem_dedup_key_notin hx (hc ▸ hin)
        · exact hkeys y h2
      · rename_i hnotin
        rcases List.mem_cons.mp hx with h1 | h2
        · exact ⟨[], t, by simp [h1], by simp⟩
        · rcases ih h2 with ⟨l₁, l₂, heq, hkeys⟩
          have hxk := mem_dedup_key_notin h2
          refine ⟨f :: l₁, l₂, by simp [heq], ?_⟩
          intro y hy
          rcases List.mem_cons.mp hy with hy1 | hy2
          · subst hy1
            intro hc
            exact hxk (hc ▸ List.mem_cons_self _ _)
          · exact hkeys y hy2

theorem normalizeOne_invariant {r : RawFormat} {f : FormatInfo}
    (h : normalizeOne r = some f) : fullInvariant f := by
  simp only [normalizeOne] at h
  split at h
  · simp at h
  · split at h
    · simp at h
    · split at h
      · simp at h
      · split at h
        · simp at h
        · injection h with h2
          subst h2
          refine ⟨?_, ?_, rfl, rfl⟩
          · dsimp only
            split <;> simp_all
          · dsimp only
            split <;> simp_all

theorem mem_addBest {info : RawInfo} {fmts : List FormatInfo} {f : FormatInfo}
    (h : f ∈ addBestMergedFormat info fmts) :
    (∃ hh u, f = mkBestFormat hh u) ∨ f ∈ fmts := by
  simp only [addBestMergedFormat] at h
  split at h
  · split at h
    · exact Or.inr h
    · rcases List.mem_cons.mp h with h1 | h2
      · exact Or.inl ⟨_, _, h1⟩
      · exact Or.inr h2
  · exact Or.inr h

theorem flag_mkBest (hh : Option Int) (u : String) :
    flagInvariant (mkBestFormat hh u) := ⟨rfl, rfl⟩

theorem flag_mp3 (q : ℚ) (u : String) : flagInvariant (mp3Format q u) := ⟨rfl, rfl⟩

theorem addBest_shape (info : RawInfo) (fmts : List FormatInfo) :
    addBestMergedFormat info fmts = fmts ∨
    ∃ hh u, addBestMergedFormat info fmts = mkBestFormat hh u :: fmts := by
  simp only [addBestMergedFormat]
  repeat' split
  all_goals first
  | exact Or.inl rfl
  | exact Or.inr ⟨_, _, rfl⟩

theorem catalogBase_shape (info : RawInfo) :
    catalogBase info = extractFormats info.formats ∨
    catalogBase info = addBestMergedFormat info (extractFormats info.formats) := by
  simp only [catalogBase]
  split
  · exact Or.inl rfl
  · exact Or.inr rfl

theorem buildCatalog_shape (info : RawInfo) :
    buildCatalog info = catalogBase info ∨
    ∃ q u, buildCatalog info = catalogBase info ++ [mp3Format q u] := by
  simp only [buildCatalog]
  repeat' split
  all_goals first
  | exact Or.inl rfl
  | exact Or.inr ⟨_, _, rfl⟩

theorem mem_catalogBase {info : RawInfo} {f : FormatInfo}
    (h : f ∈ catalogBase info) :
    (∃ hh u, f = mkBestFormat hh u) ∨ f ∈ extractFormats info.formats := by
  rcases catalogBase_shape info with he | he
  · exact Or.inr (he ▸ h)
  · exact mem_addBest (he ▸ h)

theorem mem_buildCatalog {info : RawInfo} {f : FormatInfo}
    (h : f ∈ buildCatalog info) :
    (∃ hh u, f = mkBestFormat hh u) ∨ (∃ q u, f = mp3Format q u) ∨
      f ∈ extractFormats info.formats := by
  rcases buildCatalog_shape info with he | ⟨q, u, he⟩
  · rcases mem_catalogBase (he ▸ h) with h1 | h2
    · exact Or.inl h1
    · exact Or.inr (Or.inr h2)
  · rcases List.mem_append.mp (he ▸ h) with h1 | h2
    · rcases mem_catalogBase h1 with ha | hb
      · exact Or.inl ha
      · exact Or.inr (Or.inr hb)
    · rcases List.mem_singleton.mp h2 with rfl
      exact Or.inr (Or.inl ⟨_, _, rfl⟩)

theorem splitFirst_append (sep : Char) {l₁ : List Char} (l₂ : List Char)
    (h : sep ∉ l₁) : splitFirst sep (l₁ ++ sep :: l₂) = some (l₁, l₂) := by
  induction l₁ with
  | nil => simp [splitFirst]
  | cons c t ih =>
      have hc : ¬ c = sep := fun hc => h (hc ▸ List.mem_cons_self _ _)
      have ht : sep ∉ t := fun hm => h (List.mem_cons_of_mem _ hm)
      show splitFirst sep (c :: (t ++ sep :: l₂)) = _
      unfold splitFirst
      rw [if_neg hc, ih ht]

theorem splitAll_no_sep (sep : Char) {l : List Char} (h : sep ∉ l) :
    splitAll sep l = [l] := by
  induction l with
  | nil => rfl
  | cons c t ih =>
      have hc : ¬ c = sep := fun hc => h (hc ▸ List.mem_cons_self _ _)
      have ht : sep ∉ t := fun hm => h (List.mem_cons_of_mem _ hm)
      simp only [splitAll, if_neg hc, ih ht]

theorem splitAll_two (sep : Char) {v a : List Char}
    (hv : sep ∉ v) (ha : sep ∉ a) :
    splitAll sep (v ++ sep :: a) = [v, a] := by
  induction v with
  | nil => simp [splitAll, splitAll_no_sep sep ha]
  | cons c t ih =>
      have hc : ¬ c = sep := fun hc => hv (hc ▸ List.mem_cons_self _ _)
      have ht : sep ∉ t := fun hm => hv (List.mem_cons_of_mem _ hm)
      show splitAll sep (c :: (t ++ sep :: a)) = _
      unfold splitAll
      rw [if_neg hc, ih ht]

theorem sanitize_length_le (s : List Char) : (sanitizeFilename s).length ≤ 200 := by
  simp only [sanitizeFilename]
  repeat' split
  all_goals first
  | decide
  | (simp only [List.length_take]; omega)
  | omega

theorem mem_ite_or {c : Char} {P : Prop} [Decidable P] {a b : List Char}
    (h : c ∈ (if P then a else b)) : c ∈ a ∨ c ∈ b := by
  split at h
  · exact Or.inl h
  · exact Or.inr h

theorem mem_stripDotSpace {x : Char} {l : List Char}
    (h : x ∈ stripDotSpace l) : x ∈ l := by
  simp only [stripDotSpace] at h
  have h1 := List.mem_reverse.mp h
  have h2 := (List.dropWhile_sublist dotSpace).subset h1
  have h3 := List.mem_reverse.mp h2
  exact (List.dropWhile_sublist dotSpace).subset h3

theorem mem_map_not_bad {x : Char} {s : List Char}
    (h : x ∈ s.map fun a => if badChar a then '_' else a) : badChar x = false := by
  rcases List.mem_map.mp h with ⟨a, _, hax⟩
  by_cases hb : badChar a = true
  · rw [if_pos hb] at hax
    subst hax
    decide
  · rw [if_neg hb] at hax
    subst hax
    exact Bool.not_eq_true _ ▸ hb

theorem sanitize_no_bad {s : List Char} {c : Char}
    (h : c ∈ sanitizeFilename s) : badChar c = false := by
  simp only [sanitizeFilename] at h
  have hne : c ∈ (if (stripDotSpace (s.map fun a => if badChar a then '_' else a)).isEmpty
      then "download".data
      else stripDotSpace (s.map fun a => if badChar a then '_' else a)) := by
    rcases mem_ite_or h with h1 | h1
    · exact (List.take_sublist _ _).subset h1
    · exact h1
  rcases mem_ite_or hne with hdl | hstrip
  · have hall : ∀ x ∈ "download".data, badChar x = false := by decide
    exact hall c hdl
  · exact mem_map_not_bad (mem_stripDotSpace hstrip)

/-! ## Claim theorems -/

/-- C1 (counterexample): for the /api/info scenario with a webpage
reference, one 1080p video-only raw stream and one 128 kbps audio-only
raw stream, the resulting catalog does NOT have exactly 3 entries — the
audio-only stream itself stays in the catalog, giving 4. -/
theorem c1_counterexample : (buildCatalog c1Info).length ≠ 3 := by decide

/-- C1 (amended): the same scenario yields exactly 4 entries, in the
order merged-best (label containing "Best Quality"), the 1080p
video-only entry, the 128 kbps audio-only entry, and the synthesized
MP3 audio entry. -/
theorem c1_catalog_order :
    (buildCatalog c1Info).map (fun f => f.format_id) =
      ["best", "137", "140", "bestaudio_mp3"] ∧
    containsSub ((buildCatalog c1Info).headD fmtDefault).label "Best Quality" = true ∧
    ((buildCatalog c1Info).getD 1 fmtDefault).is_video_only = true ∧
    ((buildCatalog c1Info).getD 1 fmtDefault).height = some 1080 ∧
    ((buildCatalog c1Info).getD 2 fmtDefault).is_audio = true ∧
    ((buildCatalog c1Info).getD 2 fmtDefault).abr = some 128 ∧
    ((buildCatalog c1Info).getD 3 fmtDefault).extension = "mp3" ∧
    ((buildCatalog c1Info).getD 3 fmtDefault).is_audio = true ∧
    (buildCatalog c1Info).length = 4 := by decide

/-- C2 (code evaluated at the failing input): a direct https download
request whose upstream would answer 206 with Content-Range is answered
by the handler as it stands with the 500 server_error envelope — line
209 reads the function-local `client` before any assignment — while the
relay code below that line, read as written, would forward 206 and the
identical Content-Range header. -/
theorem c2_unbound_client :
    downloadProxyDirect "https://example.com/file.mp4"
        (.ok 206 (some "bytes 0-99/200") (some "100") (some "video/mp4")) =
      .envelope 500 "server_error" ∧
    directProxyRelay (.ok 206 (some "bytes 0-99/200") (some "100") (some "video/mp4")) =
      .streamed 206 (some "bytes 0-99/200") (some "100") "video/mp4" := by decide

/-- C3 (counterexample): in the built catalog of the end-to-end scenario
the first entry — the synthesized merged-best — has has_video true while
its vcodec is unset, refuting `has_video == (vcodec != none)` for built
catalogs that include the synthesized entries. -/
theorem c3_counterexample :
    (buildCatalog c1Info).headD fmtDefault ∈ buildCatalog c1Info ∧
    ((buildCatalog c1Info).headD fmtDefault).format_id = "best" ∧
    ((buildCatalog c1Info).headD fmtDefault).has_video = true ∧
    ((buildCatalog c1Info).headD fmtDefault).vcodec = none := by decide

/-- C3 (amended): every normalizer-produced entry satisfies the full
invariant (flags equal codec presence and the derived flags agree), and
every entry of a built catalog — including the synthesized merged-best
and MP3 entries, whose codec fields stay unset — satisfies the two
derived-flag equations. -/
theorem c3_invariants :
    (∀ (raws : List RawFormat), ∀ f ∈ extractFormats raws, fullInvariant f) ∧
    (∀ (info : RawInfo), ∀ f ∈ buildCatalog info, flagInvariant f) := by
  have hextract : ∀ (raws : List RawFormat), ∀ f ∈ extractFormats raws,
      fullInvariant f := by
    intro raws f hf
    have h1 : f ∈ dedupByKey (raws.filterMap normalizeOne) [] := mem_isort.mp hf
    rcases mem_dedup_first h1 with ⟨l₁, l₂, heq, _⟩
    have h2 : f ∈ raws.filterMap normalizeOne := by
      rw [heq]; exact List.mem_append_right _ (List.mem_cons_self _ _)
    rcases List.mem_filterMap.mp h2 with ⟨r, _, hr⟩
    exact normalizeOne_invariant hr
  refine ⟨hextract, ?_⟩
  intro info f hf
  rcases mem_buildCatalog hf with ⟨hh, u, rfl⟩ | ⟨q, u, rfl⟩ | hmem
  · exact flag_mkBest hh u
  · exact flag_mp3 q u
  · rcases hextract _ f hmem with ⟨_, _, h3, h4⟩
    exact ⟨h3, h4⟩

/-- C3 witness: the amended theorem applied to the concrete scenario
catalog, at its first normalizer-produced entry and its first built
entry. -/
theorem c3_witness :
    ((extractFormats c1Info.formats).headD fmtDefault ∈ extractFormats c1Info.formats ∧
      fullInvariant ((extractFormats c1Info.formats).headD fmtDefault)) ∧
    ((buildCatalog c1Info).headD fmtDefault ∈ buildCatalog c1Info ∧
      flagInvariant ((buildCatalog c1Info).headD fmtDefault)) :=
  ⟨⟨by decide, c3_invariants.1 c1Info.formats
      ((extractFormats c1Info.formats).headD fmtDefault) (by decide)⟩,
   ⟨by decide, c3_invariants.2 c1Info
      ((buildCatalog c1Info).headD fmtDefault) (by decide)⟩⟩

/-- C4 (counterexample): a catalog holding a video-only entry (whose raw
descriptor had no format_id, so the recorded id is empty) and an
audio-only entry, with a webpage reference available, is returned
unchanged — no merged-best is prepended, refuting the claimed
"if and only if". -/
theorem c4_counterexample :
    addBestMergedFormat c4Info (extractFormats c4Info.formats) =
      extractFormats c4Info.formats ∧
    ((extractFormats c4Info.formats).filter (fun f => f.is_video_only)).length = 1 ∧
    ((extractFormats c4Info.formats).filter (fun f => f.is_audio)).length = 1 ∧
    c4Info.webpage_url = some "https://example.com/n" := by decide

/-- C4 (amended): the merged-best entry is prepended if and only if the
catalog has a video-only entry with non-empty format_id, an audio-only
entry with non-empty format_id, and a non-empty webpage (or top-level)
URL; in every other case the catalog is returned unchanged and no error
is raised. -/
theorem c4_best_iff (info : RawInfo) (fmts : List FormatInfo) :
    ((∃ b, b.format_id = "best" ∧ addBestMergedFormat info fmts = b :: fmts) ↔
      bestCond info fmts) ∧
    (¬ bestCond info fmts → addBestMergedFormat info fmts = fmts) := by
  rcases hvs : isort vDescLe
      (fmts.filter (fun f => f.is_video_only && f.format_id != "")) with _ | ⟨bv, vt⟩ <;>
    rcases has : isort aDescLe
      (fmts.filter (fun f => f.is_audio && f.format_id != "")) with _ | ⟨ba, at2⟩
  case nil.nil | nil.cons =>
    have hf1 : fmts.filter (fun f => f.is_video_only && f.format_id != "") = [] :=
      isort_eq_nil_iff.mp hvs
    have heq : addBestMergedFormat info fmts = fmts := by
      simp only [addBestMergedFormat, hvs, has]
    refine ⟨⟨?_, ?_⟩, fun _ => heq⟩
    · rintro ⟨b, _, habe⟩
      rw [heq] at habe
      exact absurd habe.symm (List.cons_ne_self b fmts)
    · rintro ⟨h1, _, _⟩
      exact absurd hf1 h1
  case cons.nil =>
    have hf2 : fmts.filter (fun f => f.is_audio && f.format_id != "") = [] :=
      isort_eq_nil_iff.mp has
    have heq : addBestMergedFormat info fmts = fmts := by
      simp only [addBestMergedFormat, hvs, has]
    refine ⟨⟨?_, ?_⟩, fun _ => heq⟩
    · rintro ⟨b, _, habe⟩
      rw [heq] at habe
      exact absurd habe.symm (List.cons_ne_self b fmts)
    · rintro ⟨_, h2, _⟩
      exact absurd hf2 h2
  case cons.cons =>
    have hf1 : fmts.filter (fun f => f.is_video_only && f.format_id != "") ≠ [] := by
      intro hn
      rw [isort_eq_nil_iff.mpr hn] at hvs
      exact List.noConfusion hvs
    have hf2 : fmts.filter (fun f => f.is_audio && f.format_id != "") ≠ [] := by
      intro hn
      rw [isort_eq_nil_iff.mpr hn] at has
      exact List.noConfusion has
    by_cases hu : pyOrS (info.webpage_url.getD "") (info.url.getD "") = ""
    · have heq : addBestMergedFormat info fmts = fmts := by
        simp only [addBestMergedFormat, hvs, has, if_pos hu]
      refine ⟨⟨?_, ?_⟩, fun _ => heq⟩
      · rintro ⟨b, _, habe⟩
        rw [heq] at habe
        exact absurd habe.symm (List.cons_ne_self b fmts)
      · rintro ⟨_, _, h3⟩
        exact absurd hu h3
    · have hform : addBestMergedFormat info fmts =
          mkBestFormat bv.height (buildMergeUrl bv.format_id ba.format_id
            (pyOrS (info.webpage_url.getD "") (info.url.getD ""))) :: fmts := by
        simp only [addBestMergedFormat, hvs, has, if_neg hu]
      exact ⟨⟨fun _ => ⟨hf1, hf2, hu⟩, fun _ => ⟨_, rfl, hform⟩⟩,
        fun hnc => absurd ⟨hf1, hf2, hu⟩ hnc⟩

/-- C4 witness: the amended theorem applied to an empty catalog, where
the condition fails and the catalog is returned unchanged. -/
theorem c4_witness :
    ¬ bestCond c4Info [] ∧ addBestMergedFormat c4Info [] = [] :=
  ⟨by decide, (c4_best_iff c4Info []).2 (by decide)⟩

/-- C5: the catalog produced before virtual-format synthesis is sorted
by the ranking key — category ascending (both, video-only, audio-only),
then height, total bitrate and audio bitrate descending, missing
numerics as 0 — stated as the lexicographic order of `_sort_key` tuples
holding pairwise along the list. -/
theorem c5_sorted (raws : List RawFormat) :
    (extractFormats raws).Pairwise (fun a b => keyLex (sortKey a) (sortKey b)) := by
  have h := pairwise_isort fmtLe fmtLe_trans fmtLe_total
    (dedupByKey (raws.filterMap normalizeOne) [])
  exact h.imp (fun hab => by simpa [fmtLe, decide_eq_true_eq] using hab)

/-- C6: the catalog builder's output has no two entries sharing
`(label, extension)`, and every entry is the first normalized descriptor
(in input order) carrying its deduplication key. -/
theorem c6_dedup (raws : List RawFormat) :
    (extractFormats raws).Pairwise
      (fun a b => ¬(a.label = b.label ∧ a.extension = b.extension)) ∧
    ∀ f ∈ extractFormats raws, ∃ l₁ l₂,
      raws.filterMap normalizeOne = l₁ ++ f :: l₂ ∧
      ∀ g ∈ l₁, dKey g ≠ dKey f := by
  constructor
  · have hp := dedup_pairwise_key (raws.filterMap normalizeOne) []
    have hsym : ∀ {x y : FormatInfo},
        ¬(x.label = y.label ∧ x.extension = y.extension) →
        ¬(y.label = x.label ∧ y.extension = x.extension) :=
      fun h hc => h ⟨hc.1.symm, hc.2.symm⟩
    have hperm := isort_perm fmtLe (dedupByKey (raws.filterMap normalizeOne) [])
    refine (hperm.pairwise_iff hsym).mpr ?_
    exact hp.imp (fun hne hc => hne (by simp [dKey, hc.1, hc.2]))
  · intro f hf
    exact mem_dedup_first (mem_isort.mp hf)

/-- C6 witness: the property instantiated on the two-stream scenario at
its first catalog entry. -/
theorem c6_witness :
    (extractFormats c1Info.formats).headD fmtDefault ∈ extractFormats c1Info.formats ∧
    ∃ l₁ l₂,
      c1Info.formats.filterMap normalizeOne =
        l₁ ++ ((extractFormats c1Info.formats).headD fmtDefault) :: l₂ ∧
      ∀ g ∈ l₁, dKey g ≠ dKey ((extractFormats c1Info.formats).headD fmtDefault) :=
  ⟨by decide, (c6_dedup c1Info.formats).2
    ((extractFormats c1Info.formats).headD fmtDefault) (by decide)⟩

set_option maxRecDepth 4000 in
/-- C7 (counterexample): a 300-character input made of dots strips to the
empty string and is replaced by "download", whose length is 8, not 200 —
refuting "for every 300-character input the output is exactly 200
characters". -/
theorem c7_counterexample :
    (List.replicate 300 '.').length = 300 ∧
    sanitizeFilename (List.replicate 300 '.') = "download".data ∧
    (sanitizeFilename (List.replicate 300 '.')).length ≠ 200 := by decide

/-- C7 (amended): the sanitizer maps "a/b:c*d" to "a_b_c_d" and "" to
"download"; every 300-character input yields AT MOST 200 characters;
leading and trailing dots and spaces are stripped (" .name. " gives
"name"); and no reserved or control character survives, each having been
replaced by an underscore. -/
theorem c7_sanitizer (s : List Char) :
    (s.length = 300 → (sanitizeFilename s).length ≤ 200) ∧
    (∀ c ∈ sanitizeFilename s, badChar c = false) ∧
    sanitizeFilename "a/b:c*d".data = "a_b_c_d".data ∧
    sanitizeFilename "".data = "download".data ∧
    sanitizeFilename " .name. ".data = "name".data :=
  ⟨fun _ => sanitize_length_le s, fun _ hc => sanitize_no_bad hc,
    by decide, by decide, by decide⟩

set_option maxRecDepth 4000 in
/-- C7 witness: the amended bound applied to 300 letters, where the
output is full length 200. -/
theorem c7_witness :
    (List.replicate 300 'a').length = 300 ∧
    (sanitizeFilename (List.replicate 300 'a')).length ≤ 200 :=
  ⟨by decide, (c7_sanitizer (List.replicate 300 'a')).1 (by decide)⟩

/-- C8 (counterexample): an /api/info extraction timeout produces the
message of extract_video_info, which the endpoint classifies as
error_type timeout but returns with HTTP status 400 — not 504 as
claimed. -/
theorem c8_counterexample :
    infoErrorResponse timeoutMessage = (400, "timeout") ∧ (400 : Nat) ≠ 504 := by
  decide

/-- C8 (amended): an /api/info extraction timeout surfaces as status 400
with error_type timeout, while the /api/download direct relay's
exception mapping — dead code behind the unbound client variable — maps
an upstream timeout to status 504 with error_type timeout. -/
theorem c8_timeout_status :
    infoErrorResponse timeoutMessage = (400, "timeout") ∧
    directProxyRelay .timedOutExc = .envelope 504 "timeout" := by decide

/-- C9: on each of the three exit paths of the mux relay — normal
completion, relay error, client disconnect — all three child processes
end in a terminal state and both pipe files are removed. -/
theorem c9_teardown (s : MuxState) (fc ac vc : Int) :
    cleanedUp (runNormalPath s fc ac vc) ∧ cleanedUp (runErrorPath s) ∧
    cleanedUp (runDisconnectPath s) := by
  have hterm : ∀ p : ProcStatus, terminalProc (termIfRunning p) = true := by
    intro p; cases p <;> rfl
  refine ⟨?_, ?_, ?_⟩ <;>
    simp [runNormalPath, runErrorPath, runDisconnectPath, finallyCleanup,
      cleanedUp, hterm]

/-- C10: parsing the merge reference built from a video id and an audio
id free of "+" and ":" and a non-empty webpage URL recovers exactly the
two ids and the URL. -/
theorem c10_merge_roundtrip (v a w : String)
    (hv1 : '+' ∉ v.data) (hv2 : ':' ∉ v.data)
    (ha1 : '+' ∉ a.data) (ha2 : ':' ∉ a.data) (hw : w ≠ "") :
    parseMergeUrl (buildMergeUrl v a w) = some (v, a, w) := by
  obtain ⟨vd⟩ := v
  obtain ⟨ad⟩ := a
  obtain ⟨wd⟩ := w
  have hv1a : '+' ∉ vd := hv1
  have hv2a : ':' ∉ vd := hv2
  have ha1a : '+' ∉ ad := ha1
  have ha2a : ':' ∉ ad := ha2
  have hdata : (buildMergeUrl ⟨vd⟩ ⟨ad⟩ ⟨wd⟩).data =
      "merge:".data ++ ((vd ++ '+' :: ad) ++ ':' :: wd) := by
    simp [buildMergeUrl, show ("+" : String).data = ['+'] from rfl,
      show (":" : String).data = [':'] from rfl, List.append_assoc]
  have hsep : ':' ∉ vd ++ '+' :: ad := by
    intro hmem
    rcases List.mem_append.mp hmem with h1 | h1
    · exact hv2a h1
    · rcases List.mem_cons.mp h1 with h2 | h2
      · exact absurd h2 (by decide)
      · exact ha2a h2
  unfold parseMergeUrl
  rw [hdata]
  rw [List.take_left' (show ("merge:".data).length = 6 from rfl),
    List.drop_left' (show ("merge:".data).length = 6 from rfl)]
  rw [if_pos rfl, splitFirst_append ':' wd hsep]
  simp only [splitAll_two '+' hv1a ha1a]

/-- C10 witness: the round trip at the concrete reference built in the
end-to-end scenario. -/
theorem c10_witness :
    ('+' ∉ "137".data) ∧ (':' ∉ "137".data) ∧
    ('+' ∉ "140".data) ∧ (':' ∉ "140".data) ∧
    ("https://example.com/v" : String) ≠ "" ∧
    parseMergeUrl (buildMergeUrl "137" "140" "https://example.com/v") =
      some ("137", "140", "https://example.com/v") :=
  ⟨by decide, by decide, by decide, by decide, by decide,
    c10_merge_roundtrip "137" "140" "https://example.com/v"
      (by decide) (by decide) (by decide) (by decide) (by decide)⟩

end AnyVid
